import Mathlib

/-!
Verification of the terminal multi-line input editor
(src/summoner/agents/agent_InputAgent/multi_ainput.py).

The Python module is embedded shallowly:

* Python strings are lists of characters (`PyStr`).
* The external character-width oracle `wcwidth` is a parameter
  `wcw : Char → Option Int` (`none` models Python's `None`).
* The terminal width queried from the environment is a parameter
  `termCols : Int`; the source clamps it with `max 1`.
* Python integer division and modulo are floor based, so they are
  embedded with `Int.fdiv` / `Int.fmod`; dividing by zero raises, which
  is embedded as `Option` (`none` = exception).
* The asynchronous line source is a list of lines; exhausting it models
  the input stream closing (aioconsole raises EOFError, embedded as
  the `streamClosed` error).
* Every write the program performs on stdout is recorded as an event:
  the prompt printed by the line-read call (`promptOut`) and explicit
  writes by the module (`stdoutWrite`).
-/

namespace MultiAinput

abbrev PyStr := List Char

/-- ANSI helper, source line 6: the format string "ESC[{}A" applied to a count. -/
def CURSOR_UP_FMT (n : Int) : PyStr := "\x1b[".data ++ (toString n).data ++ "A".data

/-- ANSI helper, source line 7: the format string "ESC[{}B" applied to a count. -/
def CURSOR_DOWN_FMT (n : Int) : PyStr := "\x1b[".data ++ (toString n).data ++ "B".data

/-- ANSI helper, source line 8: clear the entire current line. -/
def CLEAR_LINE : PyStr := "\x1b[2K".data

/-- Source lines 17-24, the inner function of rows_used.
For a tab the source evaluates
  col + (tabsize - ((col % tabsize or 0) if tabsize == 0 else col % tabsize));
when tabsize == 0 the guarded branch still computes col % 0, which raises
ZeroDivisionError in Python, embedded as `none`.  For any other character
the width oracle is consulted and None or negative widths count as 0. -/
def advance (wcw : Char → Option Int) (tabsize : Int) (col : Int) (ch : Char) :
    Option Int :=
  if ch = '\t' then
    if tabsize = 0 then none
    else some (col + (tabsize - Int.fmod col tabsize))
  else
    some (col + (match wcw ch with
      | none => 0
      | some w => if w < 0 then 0 else w))

/-- Source lines 33-39 and 44-49: the wrap step shared by both loops of
rows_used.  When the advanced column reaches or exceeds the width, the row
count grows by new_col // cols and the column becomes new_col % cols. -/
def wrapStep (cols rows newCol : Int) : Int × Int :=
  if cols ≤ newCol then (rows + Int.fdiv newCol cols, Int.fmod newCol cols)
  else (rows, newCol)

/-- The character walk of rows_used (source lines 29-49): starting from a
(rows, col) state, advance over each character in turn, wrapping as needed.
A `none` result models an uncaught Python exception. -/
def walk (wcw : Char → Option Int) (tabsize cols : Int) :
    Int × Int → PyStr → Option (Int × Int)
  | st, [] => some st
  | st, ch :: rest =>
    match advance wcw tabsize st.2 ch with
    | none => none
    | some newCol => walk wcw tabsize cols (wrapStep cols st.1 newCol) rest

/-- Source lines 10-51, the function rows_used: clamp the queried terminal
width to at least 1, then walk the prompt and the text from row 1, column 0
and return the final row count. -/
def rows_used (wcw : Char → Option Int) (termCols : Int)
    (promptStr text : PyStr) (tabsize : Int) : Option Int :=
  let cols := max 1 termCols
  match walk wcw tabsize cols (1, 0) promptStr with
  | none => none
  | some st =>
    match walk wcw tabsize cols st text with
    | none => none
    | some st2 => some st2.1

/-- The body of the erase loop, source lines 77-80: for each row write
carriage-return plus clear-line, and for all but the last row a
cursor-down(1); each list element is one write call. -/
def eraseLoopWrites (rows : Int) : List PyStr :=
  (List.range rows.toNat).flatMap fun i =>
    if (i : Int) < rows - 1 then [('\r' :: CLEAR_LINE), CURSOR_DOWN_FMT 1]
    else [('\r' :: CLEAR_LINE)]

/-- Source lines 75-83: the full erase pass over a block of the given number
of rows — cursor-up(rows), the per-row clear loop, and when more than one
row was cleared a final cursor-up(rows-1). -/
def eraseBlock (rows : Int) : List PyStr :=
  CURSOR_UP_FMT rows :: (eraseLoopWrites rows
    ++ (if 1 < rows then [CURSOR_UP_FMT (rows - 1)] else []))

/-- One recorded stdout event of a session run. -/
inductive OutEvent where
  /-- The prompt printed by the line-read call (ainput). -/
  | promptOut (s : PyStr)
  /-- An explicit sys.stdout.write performed by the module. -/
  | stdoutWrite (s : PyStr)
deriving DecidableEq

/-- The characters an event contributes to the captured raw output. -/
def OutEvent.content : OutEvent → PyStr
  | .promptOut s => s
  | .stdoutWrite s => s

/-- How a session run can fail: the input stream closed before a
terminating line (EOFError from ainput), or the division-by-zero raised
inside rows_used. -/
inductive SessionErr where
  | streamClosed
  | zeroDiv
deriving DecidableEq

/-- The loop of multi_ainput, source lines 64-93, over an explicit list of
remaining input lines.  Each iteration prints the current prompt and reads
a line; a line ending with the sentinel is stripped of its final character,
accumulated, its echoed block erased and redrawn without the sentinel; a
line not ending with the sentinel terminates the loop.  Running out of
input models the stream closing. -/
def sessionLoop (wcw : Char → Option Int) (termCols : Int)
    (cont_prompt sentinel : PyStr) :
    PyStr → List PyStr → List PyStr →
    List OutEvent × Except SessionErr PyStr
  | cur, _acc, [] => ([.promptOut cur], .error .streamClosed)
  | cur, acc, line :: rest =>
    if sentinel.isSuffixOf line then
      match rows_used wcw termCols cur line 8 with
      | none => ([.promptOut cur], .error .zeroDiv)
      | some rows =>
        let r := sessionLoop wcw termCols cont_prompt sentinel cont_prompt
          (acc ++ [line.dropLast]) rest
        (.promptOut cur :: ((eraseBlock rows).map .stdoutWrite
            ++ (.stdoutWrite (cur ++ line.dropLast ++ ['\n']) :: r.1)), r.2)
    else
      ([.promptOut cur], .ok (List.intercalate ['\n'] (acc ++ [line])))

/-- Source lines 53-95, the function multi_ainput: run the session loop
starting with the primary prompt and no accumulated lines. -/
def multi_ainput (wcw : Char → Option Int) (termCols : Int)
    (promptStr cont_prompt sentinel : PyStr) (input : List PyStr) :
    List OutEvent × Except SessionErr PyStr :=
  sessionLoop wcw termCols cont_prompt sentinel promptStr [] input

/-- The captured raw output of a run: the concatenation of everything
written to stdout, in order. -/
def rawOutput (evs : List OutEvent) : PyStr :=
  (evs.map OutEvent.content).flatten

/-- Whether a pattern occurs at the head of a character list. -/
def beginsWith : PyStr → PyStr → Bool
  | [], _ => true
  | _ :: _, [] => false
  | p :: ps, c :: cs => p == c && beginsWith ps cs

/-- Whether a pattern occurs contiguously anywhere in a character list. -/
def hasSeq (pat : PyStr) : PyStr → Bool
  | [] => pat.isEmpty
  | c :: cs => beginsWith pat (c :: cs) || hasSeq pat cs

/-- Modelled from the spec (section 8): the row-count formula the spec
claims for width-1 text, max(1, ceil(total / terminalColumns)), written
with the integer ceiling (a + b - 1) / b.  Declared only to be compared
against the row count the source actually computes. -/
def computeRowsSpec (promptLen textLen termCols : Int) : Int :=
  max 1 ((promptLen + textLen + termCols - 1) / termCols)

/-! ### Helper lemmas -/

lemma rawOutput_nil : rawOutput [] = [] := rfl

lemma rawOutput_cons (e : OutEvent) (l : List OutEvent) :
    rawOutput (e :: l) = e.content ++ rawOutput l := rfl

lemma rawOutput_append (l₁ l₂ : List OutEvent) :
    rawOutput (l₁ ++ l₂) = rawOutput l₁ ++ rawOutput l₂ := by
  induction l₁ with
  | nil => rfl
  | cons e l ih => simp [rawOutput_cons, ih, List.append_assoc]

lemma rawOutput_map_stdoutWrite (xs : List PyStr) :
    rawOutput (xs.map OutEvent.stdoutWrite) = xs.flatten := by
  induction xs with
  | nil => rfl
  | cons x xs ih => simp [rawOutput_cons, ih, OutEvent.content]

lemma beginsWith_self_append (pat t : PyStr) :
    beginsWith pat (pat ++ t) = true := by
  induction pat with
  | nil => rfl
  | cons p ps ih => simp [beginsWith, ih]

lemma hasSeq_cons_of (pat : PyStr) (c : Char) (l : PyStr)
    (h : hasSeq pat l = true) : hasSeq pat (c :: l) = true := by
  simp [hasSeq, h]

lemma hasSeq_self_append (pat t : PyStr) : hasSeq pat (pat ++ t) = true := by
  cases pat with
  | nil =>
    cases t with
    | nil => rfl
    | cons c cs => simp [hasSeq, beginsWith]
  | cons p ps =>
    simp only [hasSeq, Bool.or_eq_true]
    exact Or.inl (beginsWith_self_append (p :: ps) t)

lemma hasSeq_append_right (pat x l : PyStr) (h : hasSeq pat l = true) :
    hasSeq pat (x ++ l) = true := by
  induction x with
  | nil => simpa using h
  | cons c cs ih => exact hasSeq_cons_of pat c (cs ++ l) ih

lemma walk_append (wcw : Char → Option Int) (tabsize cols : Int)
    (a b : PyStr) : ∀ st, walk wcw tabsize cols st (a ++ b)
      = match walk wcw tabsize cols st a with
        | none => none
        | some st2 => walk wcw tabsize cols st2 b := by
  induction a with
  | nil => intro st; simp [walk]
  | cons c a ih =>
    intro st
    simp only [List.cons_append, walk]
    cases advance wcw tabsize st.2 c with
    | none => rfl
    | some n => simpa using ih (wrapStep cols st.1 n)

lemma advance_eq_some (wcw : Char → Option Int) (tabsize : Int)
    (htab : tabsize ≠ 0) (col : Int) (ch : Char) :
    ∃ n, advance wcw tabsize col ch = some n := by
  unfold advance
  by_cases h : ch = '\t' <;> simp [h, htab]

lemma wrapStep_rows_le (cols rows newCol : Int) (hc : 0 < cols) :
    rows ≤ (wrapStep cols rows newCol).1 := by
  unfold wrapStep
  by_cases hw : cols ≤ newCol
  · have h0 : 0 ≤ Int.fdiv newCol cols := by
      rw [Int.fdiv_eq_ediv _ (le_of_lt hc)]
      exact Int.ediv_nonneg (le_trans (le_of_lt hc) hw) (le_of_lt hc)
    simp only [hw, if_true]
    omega
  · simp [hw]

lemma walk_some_mono (wcw : Char → Option Int) (tabsize cols : Int)
    (htab : tabsize ≠ 0) (hc : 0 < cols) (cs : PyStr) :
    ∀ st : Int × Int, ∃ st2 : Int × Int,
      walk wcw tabsize cols st cs = some st2 ∧ st.1 ≤ st2.1 := by
  induction cs with
  | nil => intro st; exact ⟨st, rfl, le_refl _⟩
  | cons c cs ih =>
    intro st
    obtain ⟨n, hn⟩ := advance_eq_some wcw tabsize htab st.2 c
    obtain ⟨st2, h1, h2⟩ := ih (wrapStep cols st.1 n)
    refine ⟨st2, ?_, le_trans (wrapStep_rows_le cols st.1 n hc) h2⟩
    simp [walk, hn, h1]

lemma rows_used_total_aux (wcw : Char → Option Int) (termCols : Int)
    (promptStr text : PyStr) (tabsize : Int) (htab : tabsize ≠ 0) :
    ∃ r, rows_used wcw termCols promptStr text tabsize = some r ∧ 1 ≤ r := by
  have hc : (0 : Int) < max 1 termCols :=
    lt_of_lt_of_le one_pos (le_max_left 1 termCols)
  obtain ⟨st1, h1, m1⟩ :=
    walk_some_mono wcw tabsize (max 1 termCols) htab hc promptStr (1, 0)
  obtain ⟨st2, h2, m2⟩ :=
    walk_some_mono wcw tabsize (max 1 termCols) htab hc text st1
  refine ⟨st2.1, ?_, le_trans m1 m2⟩
  simp [rows_used, h1, h2]

/-- One step of the width-1 walk: every character is a non-tab of width 1,
so the column advances by one and wraps exactly at the terminal width; the
resulting state is given in closed form by euclidean division. -/
lemma walk_ones (wcw : Char → Option Int) (tabsize cols : Int)
    (hc : 0 < cols) (cs : PyStr)
    (hcs : ∀ c ∈ cs, c ≠ '\t' ∧ wcw c = some 1) :
    ∀ rows col : Int, 0 ≤ col → col < cols →
      walk wcw tabsize cols (rows, col) cs
        = some (rows + (col + cs.length) / cols, (col + cs.length) % cols) := by
  induction cs with
  | nil =>
    intro rows col h0 h1
    simp [walk, Int.ediv_eq_zero_of_lt h0 h1, Int.emod_eq_of_lt h0 h1]
  | cons c cs ih =>
    intro rows col h0 h1
    obtain ⟨hct, hcw⟩ := hcs c (List.mem_cons_self c cs)
    have hcs2 : ∀ x ∈ cs, x ≠ '\t' ∧ wcw x = some 1 :=
      fun x hx => hcs x (List.mem_cons_of_mem c hx)
    have hadv : advance wcw tabsize col c = some (col + 1) := by
      simp [advance, hct, hcw]
    have hlen : ((c :: cs).length : Int) = (cs.length : Int) + 1 := by
      push_cast [List.length_cons]; ring
    by_cases hw : cols ≤ col + 1
    · have heq : col + 1 = cols := le_antisymm (by omega) hw
      have hstep : wrapStep cols rows (col + 1) = (rows + 1, 0) := by
        rw [wrapStep, if_pos hw, heq,
          Int.fdiv_eq_ediv _ (le_of_lt hc), Int.fmod_eq_emod _ (le_of_lt hc),
          Int.ediv_self (ne_of_gt hc), Int.emod_self]
      have hdiv : (col + ((cs.length : Int) + 1)) / cols
          = (cs.length : Int) / cols + 1 := by
        have h2 : col + ((cs.length : Int) + 1) = (cs.length : Int) + 1 * cols := by
          omega
        rw [h2, Int.add_mul_ediv_right _ _ (ne_of_gt hc)]
      have hmod : (col + ((cs.length : Int) + 1)) % cols
          = (cs.length : Int) % cols := by
        have h2 : col + ((cs.length : Int) + 1) = (cs.length : Int) + 1 * cols := by
          omega
        rw [h2, Int.add_mul_emod_self]
      simp only [walk, hadv, hstep, hlen]
      rw [ih hcs2 (rows + 1) 0 (le_refl 0) hc]
      simp only [zero_add]
      rw [hdiv, hmod]
      have h3 : rows + 1 + (cs.length : Int) / cols
          = rows + ((cs.length : Int) / cols + 1) := by ring
      rw [h3]
    · have hstep : wrapStep cols rows (col + 1) = (rows, col + 1) := by
        rw [wrapStep, if_neg hw]
      simp only [walk, hadv, hstep, hlen]
      rw [ih hcs2 rows (col + 1) (by omega) (by omega)]
      have h3 : col + 1 + (cs.length : Int) = col + ((cs.length : Int) + 1) := by
        ring
      rw [h3]

/-- The row count of rows_used on width-1 non-tab input, in closed form:
one plus the floor quotient of the total length by the terminal width. -/
lemma rows_used_ones_aux (wcw : Char → Option Int) (termCols : Int)
    (promptStr text : PyStr) (tabsize : Int) (htc : 1 ≤ termCols)
    (hp : ∀ c ∈ promptStr, c ≠ '\t' ∧ wcw c = some 1)
    (ht : ∀ c ∈ text, c ≠ '\t' ∧ wcw c = some 1) :
    rows_used wcw termCols promptStr text tabsize
      = some (1 + ((promptStr.length : Int) + (text.length : Int)) / termCols) := by
  have hc : (0 : Int) < termCols := by omega
  have hmax : max 1 termCols = termCols := max_eq_right htc
  have hp0 : (0 : Int) ≤ (promptStr.length : Int) % termCols :=
    Int.emod_nonneg _ (ne_of_gt hc)
  have hp1 : (promptStr.length : Int) % termCols < termCols :=
    Int.emod_lt_of_pos _ hc
  have hwalk1 := walk_ones wcw tabsize termCols hc promptStr hp 1 0
    (le_refl 0) hc
  simp only [zero_add] at hwalk1
  have hwalk2 := walk_ones wcw tabsize termCols hc text ht
    (1 + (promptStr.length : Int) / termCols)
    ((promptStr.length : Int) % termCols) hp0 hp1
  simp only [rows_used, hmax, hwalk1, hwalk2]
  congr 1
  have hsplit : (promptStr.length : Int)
      = (promptStr.length : Int) % termCols
        + termCols * ((promptStr.length : Int) / termCols) := by
    have h4 := Int.ediv_add_emod (promptStr.length : Int) termCols
    omega
  have hdiv : ((promptStr.length : Int) + (text.length : Int)) / termCols
      = ((promptStr.length : Int) % termCols + (text.length : Int)) / termCols
        + (promptStr.length : Int) / termCols := by
    conv_lhs => rw [hsplit]
    have h5 : (promptStr.length : Int) % termCols
        + termCols * ((promptStr.length : Int) / termCols) + (text.length : Int)
        = ((promptStr.length : Int) % termCols + (text.length : Int))
          + ((promptStr.length : Int) / termCols) * termCols := by ring
    rw [h5, Int.add_mul_ediv_right _ _ (ne_of_gt hc)]
  rw [hdiv]
  ring

/-! ### Claim theorems on concrete inputs -/

/-- C3: the spec claims computeRows is total even for tabSize = 0, but the
source raises ZeroDivisionError on a tab when tabsize is 0 (the guarded
branch of the tab formula still evaluates col % 0); the embedding returns
`none` (exception) at that input. -/
theorem rows_used_tab_zero_fails :
    rows_used (fun _ => some 1) 80 [] ['\t'] 0 = none := by decide

/-- C4: the session fed the physical lines "hello \" and "world" with
sentinel "\" returns the logical message "hello \nworld": the sentinel is
stripped from the first line and the stripped contents are joined with a
single line break, in order. -/
theorem session_round_trip :
    (multi_ainput (fun _ => some 1) 80 "> ".data "~ ".data "\\".data
        ["hello \\".data, "world".data]).2 = .ok "hello \nworld".data := by
  rfl

/-- C5: erasing a block of 3 rows emits exactly cursor-up(3); twice
[carriage-return, clear-line, cursor-down(1)]; carriage-return, clear-line;
cursor-up(2) — the byte sequence ESC[3A CR ESC[2K ESC[1B CR ESC[2K ESC[1B
CR ESC[2K ESC[2A. -/
theorem eraseBlock_three :
    (eraseBlock 3).flatten
      = "\x1b[3A\r\x1b[2K\x1b[1B\r\x1b[2K\x1b[1B\r\x1b[2K\x1b[2A".data := by
  decide

/-- C1 counterexample: at a concrete continued line ("a\" then "b", sentinel
"\") the captured raw output does contain the clear-line control sequence
ESC[2K, and does not contain the line verbatim with its sentinel — the
source performs erase/redraw unconditionally, with no interactivity check,
so the claimed non-interactive fallback does not exist. -/
theorem noninteractive_fallback_counterexample :
    hasSeq "\x1b[2K".data
      (rawOutput (multi_ainput (fun _ => some 1) 80 "> ".data "~ ".data
        "\\".data ["a\\".data, "b".data]).1) = true
    ∧ hasSeq "a\\".data
      (rawOutput (multi_ainput (fun _ => some 1) 80 "> ".data "~ ".data
        "\\".data ["a\\".data, "b".data]).1) = false := by
  decide

/-- C2 counterexample: with terminal width 10, empty prompt, and ten width-1
characters, the source computes 2 rows (its wrap triggers when the column
reaches the width) while the spec formula max(1, ceil(10/10)) gives 1. -/
theorem spec_formula_counterexample :
    rows_used (fun _ => some 1) 10 [] (List.replicate 10 'a') 8 = some 2
    ∧ computeRowsSpec 0 10 10 = 1
    ∧ rows_used (fun _ => some 1) 10 [] (List.replicate 10 'a') 8
        ≠ some (computeRowsSpec 0 10 10) := by
  decide

/-- C2 amended: for every terminal width of at least 1 and prompt and text
made only of non-tab width-1 characters, the source computes
1 + floor((len(prompt)+len(text)) / terminalColumns) rows — one more than
the spec formula whenever the total length is a positive multiple of the
width, because the wrap fires as soon as the column reaches the width. -/
theorem rows_used_width_one (wcw : Char → Option Int) (termCols : Int)
    (promptStr text : PyStr) (tabsize : Int) (htc : 1 ≤ termCols)
    (hp : ∀ c ∈ promptStr, c ≠ '\t' ∧ wcw c = some 1)
    (ht : ∀ c ∈ text, c ≠ '\t' ∧ wcw c = some 1) :
    rows_used wcw termCols promptStr text tabsize
      = some (1 + ((promptStr.length : Int) + (text.length : Int)) / termCols) :=
  rows_used_ones_aux wcw termCols promptStr text tabsize htc hp ht

theorem rows_used_width_one_witness :
    (1 : Int) ≤ 10
    ∧ rows_used (fun _ => some 1) 10 "ab".data "cde".data 8
      = some (1 + ((("ab".data : PyStr).length : Int)
          + (("cde".data : PyStr).length : Int)) / 10) :=
  ⟨by decide, rows_used_width_one (fun _ => some 1) 10 "ab".data "cde".data 8
    (by decide) (by decide) (by decide)⟩

/-- C9: for every prompt, text, terminal width and positive tab size the
row count is defined and at least 1 — the walk starts at row 1 and every
wrap only adds a nonnegative quotient — so the count fed to the cursor-up
command is never zero or negative. -/
theorem rows_used_pos (wcw : Char → Option Int) (termCols : Int)
    (promptStr text : PyStr) (tabsize : Int) (h : 0 < tabsize) :
    ∃ r, rows_used wcw termCols promptStr text tabsize = some r ∧ 1 ≤ r :=
  rows_used_total_aux wcw termCols promptStr text tabsize (ne_of_gt h)

theorem rows_used_pos_witness :
    (0 : Int) < 8
    ∧ ∃ r, rows_used (fun _ => some 1) 1000000 [] [] 8 = some r ∧ 1 ≤ r :=
  ⟨by decide, rows_used_pos (fun _ => some 1) 1000000 [] [] 8 (by decide)⟩

/-- C6: with terminal width 10, an empty prompt, and nine non-tab width-1
characters followed by one width-2 character, the source computes 2 rows:
advancing past the right margin wraps the wide character eagerly onto the
next row. -/
theorem rows_used_wide_char_wraps (wcw : Char → Option Int) (t9 : PyStr)
    (c2 : Char) (tabsize : Int) (h9 : t9.length = 9)
    (h1 : ∀ c ∈ t9, c ≠ '\t' ∧ wcw c = some 1)
    (h2 : c2 ≠ '\t') (hw : wcw c2 = some 2) :
    rows_used wcw 10 [] (t9 ++ [c2]) tabsize = some 2 := by
  have hc : (0 : Int) < 10 := by norm_num
  have hmax : max (1 : Int) 10 = 10 := by norm_num
  have hwalk9 := walk_ones wcw tabsize 10 hc t9 h1 1 0 (le_refl 0) hc
  rw [h9] at hwalk9
  norm_num at hwalk9
  have hadv : advance wcw tabsize 9 c2 = some 11 := by
    rw [advance, if_neg h2, hw]
    norm_num
  have hwr : wrapStep 10 1 11 = (2, 1) := by decide
  have hstep : walk wcw tabsize 10 (1, 9) [c2] = some (2, 1) := by
    simp [walk, hadv, hwr]
  have hall := walk_append wcw tabsize 10 t9 [c2] (1, 0)
  rw [hwalk9] at hall
  simp only [] at hall
  rw [hstep] at hall
  simp [rows_used, hmax, walk, hall]

theorem rows_used_wide_char_wraps_witness :
    rows_used (fun c => if c = 'W' then some 2 else some 1) 10 []
      (List.replicate 9 'a' ++ ['W']) 8 = some 2 :=
  rows_used_wide_char_wraps (fun c => if c = 'W' then some 2 else some 1)
    (List.replicate 9 'a') 'W' 8 (by decide) (by decide) (by decide) (by decide)

lemma sessionLoop_cons_cont (wcw : Char → Option Int) (termCols : Int)
    (cont_prompt sentinel cur : PyStr) (acc : List PyStr) (line : PyStr)
    (rest : List PyStr) (h : sentinel.isSuffixOf line = true) :
    ∃ rows : Int, 1 ≤ rows ∧
      sessionLoop wcw termCols cont_prompt sentinel cur acc (line :: rest)
        = (.promptOut cur :: ((eraseBlock rows).map .stdoutWrite
            ++ (.stdoutWrite (cur ++ line.dropLast ++ ['\n'])
              :: (sessionLoop wcw termCols cont_prompt sentinel cont_prompt
                    (acc ++ [line.dropLast]) rest).1)),
          (sessionLoop wcw termCols cont_prompt sentinel cont_prompt
              (acc ++ [line.dropLast]) rest).2) := by
  obtain ⟨rows, hre, hrg⟩ :=
    rows_used_total_aux wcw termCols cur line 8 (by decide)
  exact ⟨rows, hrg, by simp [sessionLoop, h, hre]⟩

lemma sessionLoop_all_cont (wcw : Char → Option Int) (termCols : Int)
    (cont_prompt sentinel : PyStr) :
    ∀ input : List PyStr, (∀ l ∈ input, sentinel.isSuffixOf l = true) →
      ∀ cur acc,
        (sessionLoop wcw termCols cont_prompt sentinel cur acc input).2
          = .error .streamClosed := by
  intro input
  induction input with
  | nil => intro _ cur acc; rfl
  | cons l rest ih =>
    intro hall cur acc
    obtain ⟨rows, _, heq⟩ := sessionLoop_cons_cont wcw termCols cont_prompt
      sentinel cur acc l rest (hall l (List.mem_cons_self l rest))
    rw [heq]
    exact ih (fun x hx => hall x (List.mem_cons_of_mem l hx)) cont_prompt
      (acc ++ [l.dropLast])

/-- C7: if the input source closes mid-continuation — the input holds at
least one line and every available line ends with the sentinel, so no
terminating line is ever read — the run surfaces the distinct streamClosed
failure and returns no logical message: the accumulated stripped contents
are never returned, not even as an empty or incomplete message. -/
theorem stream_closed_mid_continuation (wcw : Char → Option Int)
    (termCols : Int) (promptStr cont_prompt sentinel : PyStr)
    (input : List PyStr) (hne : input ≠ [])
    (hall : ∀ l ∈ input, sentinel.isSuffixOf l = true) :
    (multi_ainput wcw termCols promptStr cont_prompt sentinel input).2
      = .error .streamClosed :=
  sessionLoop_all_cont wcw termCols cont_prompt sentinel input hall promptStr []

theorem stream_closed_mid_continuation_witness :
    (["x\\".data] : List PyStr) ≠ []
    ∧ (multi_ainput (fun _ => some 1) 80 "> ".data "~ ".data "\\".data
        ["x\\".data]).2 = .error .streamClosed :=
  ⟨by decide, stream_closed_mid_continuation (fun _ => some 1) 80 "> ".data
    "~ ".data "\\".data ["x\\".data] (by decide) (by decide)⟩

/-- C8: for every line L not ending with the sentinel, a session whose
first read returns L finalizes immediately with logical message exactly L;
the recorded output holds only the prompt printed by the read call and no
stdout write at all — zero erase and zero redraw operations. -/
theorem single_line_no_redraw (wcw : Char → Option Int) (termCols : Int)
    (promptStr cont_prompt sentinel : PyStr) (L : PyStr) (rest : List PyStr)
    (h : sentinel.isSuffixOf L = false) :
    multi_ainput wcw termCols promptStr cont_prompt sentinel (L :: rest)
      = ([.promptOut promptStr], .ok L) := by
  simp [multi_ainput, sessionLoop, h, List.intercalate]

theorem single_line_no_redraw_witness :
    ("\\".data : PyStr).isSuffixOf "hi".data = false
    ∧ multi_ainput (fun _ => some 1) 80 "> ".data "~ ".data "\\".data
        ["hi".data] = ([.promptOut "> ".data], .ok "hi".data) :=
  ⟨by decide, single_line_no_redraw (fun _ => some 1) 80 "> ".data "~ ".data
    "\\".data "hi".data [] (by decide)⟩

/-- C10: sentinel stripping removes exactly one character regardless of the
sentinel's length: for a sentinel longer than one character, a line ending
with it loses only its final character, so the logical message keeps all
but the sentinel's last character — the stripped line still ends with the
sentinel minus its last character. -/
theorem sentinel_strip_one_char (wcw : Char → Option Int) (termCols : Int)
    (promptStr cont_prompt sentinel : PyStr) (line term : PyStr)
    (hlen : 1 < sentinel.length)
    (hline : sentinel.isSuffixOf line = true)
    (hterm : sentinel.isSuffixOf term = false) :
    (multi_ainput wcw termCols promptStr cont_prompt sentinel [line, term]).2
      = .ok (line.dropLast ++ '\n' :: term)
    ∧ sentinel.dropLast.isSuffixOf line.dropLast = true := by
  constructor
  · obtain ⟨rows, _, heq⟩ := sessionLoop_cons_cont wcw termCols cont_prompt
      sentinel promptStr [] line [term] hline
    have h0 : multi_ainput wcw termCols promptStr cont_prompt sentinel
        [line, term] = sessionLoop wcw termCols cont_prompt sentinel
        promptStr [] [line, term] := rfl
    rw [h0, heq]
    simp [sessionLoop, hterm, List.intercalate]
  · have hsfx : sentinel <:+ line := List.isSuffixOf_iff_suffix.mp hline
    obtain ⟨pre, hpre⟩ := hsfx
    have hnil : sentinel ≠ [] := by
      intro hcon
      rw [hcon] at hlen
      simp at hlen
    have hdl : line.dropLast = pre ++ sentinel.dropLast := by
      rw [← hpre]
      exact List.dropLast_append_of_ne_nil pre hnil
    rw [hdl]
    exact List.isSuffixOf_iff_suffix.mpr ⟨pre, rfl⟩

theorem sentinel_strip_one_char_witness :
    1 < ("##".data : PyStr).length
    ∧ ((multi_ainput (fun _ => some 1) 80 "> ".data "~ ".data "##".data
        ["ab##".data, "z".data]).2
          = .ok (("ab##".data : PyStr).dropLast ++ '\n' :: "z".data)
      ∧ ("##".data : PyStr).dropLast.isSuffixOf
          ("ab##".data : PyStr).dropLast = true) :=
  ⟨by decide, sentinel_strip_one_char (fun _ => some 1) 80 "> ".data
    "~ ".data "##".data "ab##".data "z".data (by decide) (by decide)
    (by decide)⟩

lemma beginsWith_append_left (pat : PyStr) (x : PyStr) :
    ∀ l : PyStr, beginsWith pat l = true → beginsWith pat (l ++ x) = true := by
  induction pat with
  | nil => intro l _; rfl
  | cons p ps ih =>
    intro l h
    cases l with
    | nil => simp [beginsWith] at h
    | cons c cs =>
      simp only [beginsWith, Bool.and_eq_true] at h
      simp only [List.cons_append, beginsWith, Bool.and_eq_true]
      exact ⟨h.1, ih cs h.2⟩

lemma hasSeq_nil_pat (x : PyStr) : hasSeq [] x = true := by
  cases x with
  | nil => rfl
  | cons c cs => simp [hasSeq, beginsWith]

lemma hasSeq_append_left (pat x : PyStr) :
    ∀ l : PyStr, hasSeq pat l = true → hasSeq pat (l ++ x) = true := by
  intro l
  induction l with
  | nil =>
    intro h
    have hpat : pat = [] := by
      cases pat with
      | nil => rfl
      | cons p ps => simp [hasSeq] at h
    rw [hpat]
    simpa using hasSeq_nil_pat x
  | cons c cs ih =>
    intro h
    simp only [hasSeq, Bool.or_eq_true] at h
    simp only [List.cons_append, hasSeq, Bool.or_eq_true]
    cases h with
    | inl h => exact Or.inl (beginsWith_append_left pat x (c :: cs) h)
    | inr h => exact Or.inr (ih h)

lemma hasSeq_eraseLoop (rows : Int) (hr : 1 ≤ rows) :
    hasSeq CLEAR_LINE (eraseLoopWrites rows).flatten = true := by
  obtain ⟨n, hn⟩ : ∃ n : Nat, rows.toNat = n + 1 := ⟨rows.toNat - 1, by omega⟩
  rw [eraseLoopWrites, hn, List.range_succ_eq_map, List.flatMap_cons,
    List.flatten_append]
  by_cases h0 : ((0 : Nat) : Int) < rows - 1
  · rw [if_pos h0]
    simp only [List.flatten_cons, List.flatten_nil, List.append_nil,
      List.append_assoc]
    exact hasSeq_cons_of _ _ _ (hasSeq_append_left _ _ _
      (hasSeq_self_append _ _))
  · rw [if_neg h0]
    simp only [List.flatten_cons, List.flatten_nil, List.append_nil]
    exact hasSeq_cons_of _ _ _ (hasSeq_self_append _ _)

lemma hasSeq_eraseBlock (rows : Int) (hr : 1 ≤ rows) :
    hasSeq CLEAR_LINE (eraseBlock rows).flatten = true := by
  rw [eraseBlock, List.flatten_cons, List.flatten_append]
  apply hasSeq_append_right
  apply hasSeq_append_left
  exact hasSeq_eraseLoop rows hr

/-- C1 amended: the source performs the erase/redraw step unconditionally —
it never checks whether the output sink is interactive — so for every
continued line the captured raw output contains the clear-line control
sequence and contains the line redrawn without its sentinel character. -/
theorem redraw_unconditional (wcw : Char → Option Int) (termCols : Int)
    (cont_prompt sentinel cur : PyStr) (acc : List PyStr) (line : PyStr)
    (rest : List PyStr) (h : sentinel.isSuffixOf line = true) :
    hasSeq CLEAR_LINE (rawOutput (sessionLoop wcw termCols cont_prompt
        sentinel cur acc (line :: rest)).1) = true
    ∧ hasSeq (cur ++ line.dropLast ++ ['\n'])
        (rawOutput (sessionLoop wcw termCols cont_prompt sentinel cur acc
          (line :: rest)).1) = true := by
  obtain ⟨rows, hr, heq⟩ := sessionLoop_cons_cont wcw termCols cont_prompt
    sentinel cur acc line rest h
  rw [heq]
  dsimp only
  rw [rawOutput_cons, rawOutput_append, rawOutput_map_stdoutWrite,
    rawOutput_cons]
  constructor
  · apply hasSeq_append_right
    apply hasSeq_append_left
    exact hasSeq_eraseBlock rows hr
  · apply hasSeq_append_right
    apply hasSeq_append_right
    exact hasSeq_self_append _ _

theorem redraw_unconditional_witness :
    hasSeq CLEAR_LINE (rawOutput (sessionLoop (fun _ => some 1) 80 "~ ".data
        "\\".data "> ".data [] ["a\\".data, "b".data]).1) = true
    ∧ hasSeq ("> ".data ++ ("a\\".data : PyStr).dropLast ++ ['\n'])
        (rawOutput (sessionLoop (fun _ => some 1) 80 "~ ".data "\\".data
          "> ".data [] ["a\\".data, "b".data]).1) = true :=
  redraw_unconditional (fun _ => some 1) 80 "~ ".data "\\".data "> ".data
    [] "a\\".data ["b".data] (by decide)

end MultiAinput
